import Mathlib

/-!
Verification of the ramp-experiment control software (stepper motor step
accounting, angle/position conversion, server control loop) against its
natural-language specification.  The Python modules `motor.py`, `ramp.py`,
`A4988.py`, `mqtt.py` and `__main__.py` are shallowly embedded below:
pure arithmetic becomes functions over `ℚ`/`ℝ`/`ℤ`, the generator-based
chunked moves become explicit recursive functions producing the list of
suspension points, exceptions become explicit error components of result
records, and hardware calls become trace events.
-/

namespace RampExperiment

/-- Embeds `onionGpio.Value` (the two GPIO logic levels). -/
inductive Value : Type
  | low
  | high
  deriving DecidableEq, Repr

/-- Embeds `Value.HIGH if self.direction is Value.LOW else Value.LOW`
(`motor.py`, direction toggling in `set_steps` / `iter_steps`). -/
def toggle : Value → Value
  | .low => .high
  | .high => .low

/-- Calls made on the `A4988` driver by the motor code: direction-line write,
wake, sleep, one step pulse, enable, disable. -/
inductive DriverOp : Type
  | setDir (v : Value)
  | wake
  | sleepOp
  | pulse
  | enable
  | disable
  deriving DecidableEq, Repr

/-- The observable line state of the `A4988` driver: enable line (active-low,
`enabled = true` means the enable GPIO is low), sleep line
(`sleeping = true` means the sleep GPIO is low), direction line. -/
structure DriverState : Type where
  enabled : Bool
  sleeping : Bool
  dirLine : Value
  deriving DecidableEq, Repr

/-- Driver state after `A4988.__init__`: enable line high (disabled),
sleep line high (not sleeping), direction line low. -/
def A4988.initState : DriverState := ⟨false, false, Value.low⟩

/-- Effect of a single driver call on the driver line state
(embeds the bodies of `A4988.enable/disable/sleep/wake/set_direction/step`). -/
def DriverState.app (d : DriverState) : DriverOp → DriverState
  | .setDir v => { d with dirLine := v }
  | .wake => { d with sleeping := false }
  | .sleepOp => { d with sleeping := true }
  | .pulse => d
  | .enable => { d with enabled := true }
  | .disable => { d with enabled := false }

/-- Driver state after a sequence of driver calls. -/
def applyOps (d : DriverState) (ops : List DriverOp) : DriverState :=
  ops.foldl DriverState.app d

/-- Python `int()` applied to a rational/real value: truncation toward zero. -/
def pytrunc {α : Type} [LinearOrderedField α] [FloorRing α] (x : α) : ℤ :=
  if 0 ≤ x then ⌊x⌋ else ⌈x⌉

/-- The exceptions raised by `WormMotor`: `OutOfRangeError` (carrying the
requested step count and both limits, as the Python message does) and
`ValueError` (non-positive chunk size). -/
inductive MotorError : Type
  | outOfRange (steps lower upper : ℤ)
  | valueError
  deriving DecidableEq, Repr

/-- Embeds the state of `WormMotor` (`motor.py`): forward-direction level,
step width, time per pulse (`tps = 1 / pps`), limits and current position in
whole steps, and the shutdown-homing flag. -/
structure WormMotor (α : Type) : Type where
  direction : Value
  step_width : α
  tps : α
  limit_lower : ℤ
  limit_upper : ℤ
  steps : ℤ
  reset_on_shutdown : Bool

/-- Embeds `WormMotor.__init__`: limits and initial position are converted
from distances to whole steps by Python `int()` truncation; the driver is
put to sleep and enabled (see `WormMotor.init_ops`). -/
def WormMotor.make {α : Type} [LinearOrderedField α] [FloorRing α]
    (direction : Value) (step_width pps limit_lower limit_upper position : α)
    (reset_on_shutdown : Bool) : WormMotor α :=
  { direction := direction
    step_width := step_width
    tps := 1 / pps
    limit_lower := pytrunc (limit_lower / step_width)
    limit_upper := pytrunc (limit_upper / step_width)
    steps := pytrunc (position / step_width)
    reset_on_shutdown := reset_on_shutdown }

/-- Driver calls issued by `WormMotor.__init__`:
`driver.sleep()` then `driver.enable()`. -/
def WormMotor.init_ops : List DriverOp := [.sleepOp, .enable]

/-- Embeds a completed `WormMotor._move_steps(amount, direction)`:
the step counter changes by `amount` in the sign given by comparing
`direction` with the motor's forward level (the Python code updates the
counter once per pulse; the net effect is recorded here, the interrupted
variant below keeps the per-pulse accounting), and the driver receives
`set_direction`, `wake`, `amount` pulses, and the `finally`-guaranteed
`sleep`. -/
def WormMotor.move_steps {α : Type} (m : WormMotor α) (amount : ℕ)
    (dir : Value) : WormMotor α × List DriverOp :=
  ({ m with steps := m.steps + (if dir = m.direction then (amount : ℤ) else -(amount : ℤ)) },
   .setDir dir :: .wake :: (List.replicate amount .pulse ++ [.sleepOp]))

/-- Embeds `WormMotor._move_steps` interrupted by an exception after `j`
completed pulses (`j ≥ amount` means no interruption): the counter is updated
immediately after each pulse, so it reflects exactly the pulses issued, and
the `finally` block still puts the driver to sleep. -/
def WormMotor.move_steps_interrupted {α : Type} (m : WormMotor α) (amount : ℕ)
    (dir : Value) (j : ℕ) : WormMotor α × List DriverOp :=
  let done := min j amount
  ({ m with steps := m.steps + (if dir = m.direction then (done : ℤ) else -(done : ℤ)) },
   .setDir dir :: .wake :: (List.replicate done .pulse ++ [.sleepOp]))

/-- Result of `WormMotor.set_steps`-style calls: the motor state after the
call, the driver calls issued, and the exception raised (if any).  A raised
exception leaves the previous motor state intact, as in Python. -/
structure StepResult (α : Type) : Type where
  motor : WormMotor α
  ops : List DriverOp
  error : Option MotorError

/-- Result of `WormMotor.iter_steps`-style generators: final motor state,
driver calls, the step-counter values visible at each suspension (`yield`),
and the exception raised (if any). -/
structure IterResult (α : Type) : Type where
  motor : WormMotor α
  ops : List DriverOp
  yieldSteps : List ℤ
  error : Option MotorError

/-- Embeds `WormMotor.set_steps`: validates
`limit_upper ≥ steps ≥ limit_lower`, then moves by the (signed) difference,
toggling the direction for negative differences; out-of-range targets raise
`OutOfRangeError` before any driver call. -/
def WormMotor.set_steps {α : Type} (m : WormMotor α) (steps : ℤ) : StepResult α :=
  if steps ≤ m.limit_upper ∧ m.limit_lower ≤ steps then
    let difference := steps - m.steps
    if 0 < difference then
      let (m', ops) := m.move_steps difference.toNat m.direction
      ⟨m', ops, none⟩
    else if difference < 0 then
      let (m', ops) := m.move_steps (-difference).toNat (toggle m.direction)
      ⟨m', ops, none⟩
    else
      ⟨m, [], none⟩
  else
    ⟨m, [], some (.outOfRange steps m.limit_lower m.limit_upper)⟩

/-- Embeds the `while difference > step_size` loop of `WormMotor.iter_steps`:
moves `chunk` steps and records the counter at the suspension point while more
than `chunk` steps remain, then moves the remaining difference without a
further suspension.  `hc` records that the `step_size ≤ 0` guard has already
passed (the Python loop would not terminate otherwise). -/
def iter_loop {α : Type} (m : WormMotor α) (dir : Value) (difference chunk : ℕ)
    (hc : 0 < chunk) : WormMotor α × List DriverOp × List ℤ :=
  if h : chunk < difference then
    let (m1, ops1) := m.move_steps chunk dir
    let (m2, ops2, ys) := iter_loop m1 dir (difference - chunk) chunk hc
    (m2, ops1 ++ ops2, m1.steps :: ys)
  else
    let (m1, ops1) := m.move_steps difference dir
    (m1, ops1, [])
termination_by difference
decreasing_by omega

/-- Embeds `WormMotor.iter_steps`: raises `ValueError` on `step_size ≤ 0`,
`OutOfRangeError` on out-of-range targets (both before any driver call),
otherwise performs the chunked move of `iter_loop` with the direction chosen
by the sign of the difference. -/
def WormMotor.iter_steps {α : Type} (m : WormMotor α) (steps chunk : ℤ) :
    IterResult α :=
  if hc : chunk ≤ 0 then
    ⟨m, [], [], some .valueError⟩
  else if steps ≤ m.limit_upper ∧ m.limit_lower ≤ steps then
    let difference := steps - m.steps
    let dir := if difference < 0 then toggle m.direction else m.direction
    let (m', ops, ys) := iter_loop m dir difference.natAbs chunk.toNat
      (by omega)
    ⟨m', ops, ys, none⟩
  else
    ⟨m, [], [], some (.outOfRange steps m.limit_lower m.limit_upper)⟩

/-- Embeds `WormMotor.get_steps`. -/
def WormMotor.get_steps {α : Type} (m : WormMotor α) : ℤ := m.steps

/-- Embeds `WormMotor.set_position`: converts the distance to whole steps by
Python `int()` truncation and delegates to `set_steps`. -/
def WormMotor.set_position {α : Type} [LinearOrderedField α] [FloorRing α]
    (m : WormMotor α) (position : α) : StepResult α :=
  m.set_steps (pytrunc (position / m.step_width))

/-- Embeds `WormMotor.iter_position`: converts distance and chunk size to
whole steps and delegates to `iter_steps`. -/
def WormMotor.iter_position {α : Type} [LinearOrderedField α] [FloorRing α]
    (m : WormMotor α) (position step_size : α) : IterResult α :=
  m.iter_steps (pytrunc (position / m.step_width)) (pytrunc (step_size / m.step_width))

/-- Embeds `WormMotor.get_position`: `steps * step_width`. -/
def WormMotor.get_position {α : Type} [LinearOrderedField α] [FloorRing α]
    (m : WormMotor α) : α :=
  (m.steps : α) * m.step_width

/-- Embeds `Ramp` (`ramp.py`): owned motor, adjacent side length, and the
angular offset pre-converted to a position offset at construction. -/
structure Ramp (α : Type) : Type where
  motor : WormMotor α
  adjacent : α
  offset : α

/-- Embeds `Ramp.__init__`: `offset` is stored as
`tan(offset_angle) * adjacent` because tangent is not additive. -/
noncomputable def Ramp.make (motor : WormMotor ℝ) (adjacent offsetAngle : ℝ) :
    Ramp ℝ :=
  ⟨motor, adjacent, Real.tan offsetAngle * adjacent⟩

/-- Embeds `Ramp.set_angle`: moves the motor to
`tan(radians) * adjacent - offset`. -/
noncomputable def Ramp.set_angle (r : Ramp ℝ) (radians : ℝ) : StepResult ℝ :=
  r.motor.set_position (Real.tan radians * r.adjacent - r.offset)

/-- Embeds `Ramp.get_angle`: `atan((position + offset) / adjacent)`. -/
noncomputable def Ramp.get_angle (r : Ramp ℝ) : ℝ :=
  Real.arctan ((r.motor.get_position + r.offset) / r.adjacent)

/-- Embeds `Ramp.iter_angle`: translates target angle and step-size angle to
distances and delegates to `WormMotor.iter_position`. -/
noncomputable def Ramp.iter_angle (r : Ramp ℝ) (radians step_size : ℝ) :
    IterResult ℝ :=
  r.motor.iter_position (Real.tan radians * r.adjacent - r.offset)
    (Real.tan step_size * r.adjacent)

/-- Embeds `A4988.STEP_SLEEP` (one microsecond pulse width). -/
def STEP_SLEEP : ℚ := 1 / 1000000

/-- The argument passed to `time.sleep` between pulses in
`WormMotor._move_steps`: `self.tps - STEP_SLEEP * 2` with `tps = 1 / pps`.
Note the code does not clamp this value. -/
def sleep_arg (pps pulse_width : ℚ) : ℚ :=
  1 / pps - pulse_width * 2

/-- The per-pulse sleep duration the specification describes:
`(1/pps) - 2*pulse_width` clamped to be non-negative.
Modelled from the spec for comparison with `sleep_arg`. -/
def sleep_arg_spec (pps pulse_width : ℚ) : ℚ :=
  max 0 (1 / pps - 2 * pulse_width)

/-- Embeds `mqtt.Status` (the published experiment status). -/
inductive Status : Type
  | ready
  | busy
  | error
  | offline
  deriving DecidableEq, Repr

/-- The externally observable actions of `RampServer.handle_target`:
status/telemetry publications, the cooldown wait, elevator enable/disable,
the landing-zone edge wait, and the cooldown reset. -/
inductive ServerEvent : Type
  | publishStatus (s : Status)
  | publishCurrent
  | publishTimestamp
  | waiterWait
  | elevatorEnable
  | elevatorDisable
  | waitEdge
  | waiterReset
  deriving DecidableEq, Repr

/-- The possible outcomes of `landing_zone.waitForEdge(timeout)`:
an edge is observed, the wait times out (`TimeoutError`), or some other
exception is raised. -/
inductive EdgeOutcome : Type
  | edge
  | timeout
  | fault
  deriving DecidableEq, Repr

/-- Embeds `RampServer.handle_target` as its action trace, parameterised by
the number of suspensions of the chunked ramp move and the outcome of the
edge wait: publish BUSY; publish the current angle after every suspension and
once more after the move; wait out the cooldown; enable the elevator; wait
for the edge inside `try`; on `TimeoutError` publish ERROR, on an edge
publish the timestamp and READY; in `finally` disable the elevator and reset
the cooldown waiter.  The boolean records whether an exception propagates out
of `handle_target` (only the non-timeout fault does). -/
def handle_target (chunks : ℕ) (outcome : EdgeOutcome) :
    List ServerEvent × Bool :=
  (ServerEvent.publishStatus .busy ::
    (List.replicate chunks .publishCurrent ++
      [.publishCurrent, .waiterWait, .elevatorEnable, .waitEdge] ++
      (match outcome with
        | .timeout => [.publishStatus .error]
        | .edge => [.publishTimestamp, .publishStatus .ready]
        | .fault => []) ++
      [.elevatorDisable, .waiterReset]),
   match outcome with
   | .fault => true
   | _ => false)

/-- One teardown call made during shutdown of some layer:
the motor's homing move, the driver's sleep/disable and four line releases,
the server's loop stop and transport disconnect, and the server's elevator
and landing-zone releases. -/
inductive ShutdownStep : Type
  | homing
  | driverSleep
  | driverDisable
  | relEnable
  | relSleep
  | relStep
  | relDir
  | serverStop
  | mqttDisconnect
  | elevatorRelease
  | landingRelease
  deriving DecidableEq, Repr

/-- Straight-line Python control flow with `try/finally`, used to embed the
shutdown methods: an action that may raise, sequencing (which stops at the
first raising action), and `try/finally` (whose `finally` part always runs). -/
inductive Stmt : Type
  | skip
  | act (s : ShutdownStep)
  | seq (a b : Stmt)
  | tryFinally (body fin : Stmt)

/-- Execute a shutdown statement given which steps raise: returns the list of
steps that received a call (in order) and whether an exception propagates.
A raising step is itself attempted; `seq` skips the rest after a raise;
`tryFinally` always runs the `finally` part and propagates an exception from
either part. -/
def Stmt.exec (fails : ShutdownStep → Bool) : Stmt → List ShutdownStep × Bool
  | .skip => ([], false)
  | .act s => ([s], fails s)
  | .seq a b =>
    let (ta, ea) := a.exec fails
    if ea then (ta, true)
    else
      let (tb, eb) := b.exec fails
      (ta ++ tb, eb)
  | .tryFinally body fin =>
    let (tb, eb) := body.exec fails
    let (tf, ef) := fin.exec fails
    (tb ++ tf, eb || ef)

/-- Embeds `A4988.shutdown`: `sleep(); disable();` then release the four GPIO
lines, one after another, with no `try/finally` protection. -/
def A4988.shutdown_stmt : Stmt :=
  .seq (.act .driverSleep) (.seq (.act .driverDisable) (.seq (.act .relEnable)
    (.seq (.act .relSleep) (.seq (.act .relStep) (.act .relDir)))))

/-- Embeds `WormMotor.shutdown`: optionally home to the lower limit inside
`try`, with the driver shutdown in `finally`. -/
def WormMotor.shutdown_stmt (reset_on_shutdown : Bool) : Stmt :=
  .tryFinally (if reset_on_shutdown then .act .homing else .skip)
    A4988.shutdown_stmt

/-- Embeds `Ramp.shutdown`: delegates to the motor shutdown. -/
def Ramp.shutdown_stmt (reset_on_shutdown : Bool) : Stmt :=
  WormMotor.shutdown_stmt reset_on_shutdown

/-- Embeds `RampServer.shutdown`: stop the loop and disconnect inside `try`
(the `except` clause only logs and re-raises), with the device teardown —
ramp shutdown, elevator release, landing-zone release, again sequential and
unprotected — in `finally`. -/
def RampServer.shutdown_stmt (reset_on_shutdown : Bool) : Stmt :=
  .tryFinally (.seq (.act .serverStop) (.act .mqttDisconnect))
    (.seq (Ramp.shutdown_stmt reset_on_shutdown)
      (.seq (.act .elevatorRelease) (.act .landingRelease)))

/-- The cross-thread state relevant to `RampServer.stop`: the `is_stopped`
event (set by `loop_forever`'s `finally` once the worker loop has exited) and
the `stop_scheduled` flag. -/
structure ServerStopState : Type where
  is_stopped : Bool
  stop_scheduled : Bool
  deriving DecidableEq, Repr

/-- Embeds `RampServer.schedule_stop`. -/
def schedule_stop (s : ServerStopState) : ServerStopState :=
  { s with stop_scheduled := true }

/-- Embeds `Event.wait` on `is_stopped`: returns the state if the event is
set, `none` (a deadlocked wait, since no loop is left to set it) otherwise. -/
def event_wait (s : ServerStopState) : Option ServerStopState :=
  if s.is_stopped then some s else none

/-- Embeds `RampServer.stop`: schedule a stop, wait on `is_stopped`, publish
OFFLINE (waiting for delivery), stop the transport loop, reset the flag.
Returns `none` if the wait deadlocks, otherwise the new state and the list of
status publications made by this call. -/
def RampServer.stop (s : ServerStopState) :
    Option (ServerStopState × List Status) :=
  match event_wait (schedule_stop s) with
  | none => none
  | some s' => some ({ s' with stop_scheduled := false }, [Status.offline])

/-- Two consecutive calls to `RampServer.stop`: `none` if either call
deadlocks, otherwise the final state and all status publications of both
calls. -/
def stop_twice (s : ServerStopState) :
    Option (ServerStopState × List Status) :=
  match RampServer.stop s with
  | none => none
  | some (s1, pubs1) =>
    match RampServer.stop s1 with
    | none => none
    | some (s2, pubs2) => some (s2, pubs1 ++ pubs2)

/-! ### Basic lemmas about the embedded definitions -/

/-- The invariant of claim C1: the step counter lies between the limits. -/
def WormMotor.InLimits {α : Type} (m : WormMotor α) : Prop :=
  m.limit_lower ≤ m.steps ∧ m.steps ≤ m.limit_upper

lemma toggle_ne (v : Value) : toggle v ≠ v := by
  cases v <;> simp [toggle]

lemma pytrunc_mono {α : Type} [LinearOrderedField α] [FloorRing α] {x y : α}
    (h : x ≤ y) : pytrunc x ≤ pytrunc y := by
  unfold pytrunc
  split_ifs with hx hy hy
  · exact Int.floor_le_floor h
  · exact absurd (hx.trans h) hy
  · refine le_trans (Int.ceil_le.mpr ?_) (Int.floor_nonneg.mpr hy)
    exact_mod_cast le_of_not_le hx
  · exact Int.ceil_le_ceil h

lemma abs_pytrunc_sub_lt_one {α : Type} [LinearOrderedField α] [FloorRing α]
    (x : α) : |(pytrunc x : α) - x| < 1 := by
  unfold pytrunc
  split_ifs with hx
  · rw [abs_lt]
    constructor
    · have h1 := Int.sub_one_lt_floor x
      linarith
    · have h2 := Int.floor_le x
      linarith
  · rw [abs_lt]
    constructor
    · have h1 := Int.le_ceil x
      linarith
    · have h2 := Int.ceil_lt_add_one x
      linarith

lemma move_steps_motor {α : Type} (m : WormMotor α) (amount : ℕ) (dir : Value) :
    (m.move_steps amount dir).1 =
      { m with steps := m.steps +
          (if dir = m.direction then (amount : ℤ) else -(amount : ℤ)) } := rfl

lemma set_steps_out_of_range {α : Type} (m : WormMotor α) (t : ℤ)
    (h : ¬(t ≤ m.limit_upper ∧ m.limit_lower ≤ t)) :
    m.set_steps t = ⟨m, [], some (.outOfRange t m.limit_lower m.limit_upper)⟩ := by
  simp [WormMotor.set_steps, h]

lemma set_steps_in_range {α : Type} (m : WormMotor α) (t : ℤ)
    (h1 : t ≤ m.limit_upper) (h2 : m.limit_lower ≤ t) :
    (m.set_steps t).motor = { m with steps := t } ∧
      (m.set_steps t).error = none := by
  unfold WormMotor.set_steps
  simp only [h1, h2, and_self, if_true]
  by_cases hp : 0 < t - m.steps
  · simp only [hp, if_true, WormMotor.move_steps]
    constructor
    · congr 1
      omega
    · trivial
  · by_cases hn : t - m.steps < 0
    · simp only [hp, if_false, hn, if_true, WormMotor.move_steps]
      rw [if_neg (toggle_ne m.direction)]
      constructor
      · congr 1
        omega
      · trivial
    · simp only [hp, if_false, hn]
      constructor
      · have : t = m.steps := by omega
        subst this
        rfl
      · trivial

/-- Master lemma about the chunked-move loop: the final motor has moved by
exactly the requested difference in the requested direction (all other fields
unchanged), the number of suspensions is `(difference - 1) / chunk`, and the
step counter values along the way (start, each suspension, final target) form
a monotone chain in the direction of travel. -/
lemma iter_loop_spec {α : Type} (dir : Value) (c : ℕ) (hc : 0 < c) :
    ∀ (d : ℕ) (m : WormMotor α),
      (iter_loop m dir d c hc).1 =
        { m with steps := m.steps + (if dir = m.direction then (d : ℤ) else -(d : ℤ)) } ∧
      (iter_loop m dir d c hc).2.2.length = (d - 1) / c ∧
      List.Chain' (fun a b : ℤ =>
          0 ≤ (if dir = m.direction then (1 : ℤ) else -1) * (b - a))
        (m.steps :: ((iter_loop m dir d c hc).2.2 ++
          [m.steps + (if dir = m.direction then (d : ℤ) else -(d : ℤ))])) := by
  intro d
  induction d using Nat.strong_induction_on with
  | _ d ih =>
    intro m
    rw [iter_loop.eq_def]
    by_cases h : c < d
    · rw [dif_pos h]
      simp only [WormMotor.move_steps]
      rcases h' : iter_loop
          { m with steps := m.steps +
              (if dir = m.direction then (c : ℤ) else -(c : ℤ)) }
          dir (d - c) c hc with ⟨m2, ops2, ys⟩
      obtain ⟨ih1, ih2, ih3⟩ := ih (d - c) (by omega)
        { m with steps := m.steps +
            (if dir = m.direction then (c : ℤ) else -(c : ℤ)) }
      rw [h'] at ih1 ih2 ih3
      dsimp only at ih1 ih2 ih3 ⊢
      by_cases hdir : dir = m.direction
      · simp only [hdir, eq_self_iff_true, if_true] at ih1 ih2 ih3 ⊢
        refine ⟨?_, ?_, ?_⟩
        · rw [ih1]
          congr 1
          push_cast [Nat.cast_sub h.le]
          ring
        · rw [List.length_cons, ih2,
            Nat.div_eq_sub_div hc (by omega : c ≤ d - 1)]
          have hsub : d - c - 1 = d - 1 - c := by omega
          rw [hsub]
        · rw [List.cons_append, List.chain'_cons]
          refine ⟨by omega, ?_⟩
          have harith : m.steps + (c : ℤ) + ((d - c : ℕ) : ℤ) =
              m.steps + (d : ℤ) := by
            push_cast [Nat.cast_sub h.le]
            ring
          rw [harith] at ih3
          exact ih3
      · simp only [if_neg hdir] at ih1 ih2 ih3 ⊢
        refine ⟨?_, ?_, ?_⟩
        · rw [ih1]
          congr 1
          push_cast [Nat.cast_sub h.le]
          ring
        · rw [List.length_cons, ih2,
            Nat.div_eq_sub_div hc (by omega : c ≤ d - 1)]
          have hsub : d - c - 1 = d - 1 - c := by omega
          rw [hsub]
        · rw [List.cons_append, List.chain'_cons]
          refine ⟨by omega, ?_⟩
          have harith : m.steps + -(c : ℤ) + -((d - c : ℕ) : ℤ) =
              m.steps + -(d : ℤ) := by
            push_cast [Nat.cast_sub h.le]
            ring
          rw [harith] at ih3
          exact ih3
    · rw [dif_neg h]
      simp only [WormMotor.move_steps]
      refine ⟨by first | rfl | trivial, ?_, ?_⟩
      · simp only [List.length_nil]
        have hlt : d - 1 < c := by omega
        rw [Nat.div_eq_of_lt hlt]
      · simp only [List.nil_append]
        rw [List.chain'_pair]
        by_cases hdir : dir = m.direction
        · simp only [hdir, eq_self_iff_true, if_true]
          omega
        · simp only [if_neg hdir]
          omega

/-- `iter_steps` on an in-range target with a positive chunk: no error, the
final counter equals the target, the suspension count is
`(|target - current| - 1) / chunk`, and the counter values move monotonically
from the start toward the target. -/
lemma iter_steps_in_range {α : Type} (m : WormMotor α) (t c : ℤ)
    (hc : 0 < c) (h1 : t ≤ m.limit_upper) (h2 : m.limit_lower ≤ t) :
    (m.iter_steps t c).motor = { m with steps := t } ∧
    (m.iter_steps t c).error = none ∧
    (m.iter_steps t c).yieldSteps.length = ((t - m.steps).natAbs - 1) / c.toNat ∧
    (m.steps ≤ t →
      List.Chain' (· ≤ ·) (m.steps :: (m.iter_steps t c).yieldSteps ++ [t])) ∧
    (t ≤ m.steps →
      List.Chain' (fun a b : ℤ => b ≤ a)
        (m.steps :: (m.iter_steps t c).yieldSteps ++ [t])) := by
  unfold WormMotor.iter_steps
  rw [dif_neg (by omega : ¬ c ≤ 0), if_pos ⟨h1, h2⟩]
  by_cases hneg : t - m.steps < 0
  · simp only [if_pos hneg]
    obtain ⟨s1, s2, s3⟩ := iter_loop_spec (toggle m.direction) c.toNat
      (by omega) (t - m.steps).natAbs m
    rcases hl : iter_loop m (toggle m.direction) (t - m.steps).natAbs c.toNat
      (by omega) with ⟨m2, ops2, ys⟩
    rw [hl] at s1 s2 s3
    simp only [if_neg (toggle_ne m.direction)] at s1 s3
    dsimp only at s1 s2 s3 ⊢
    have habs : m.steps + -(((t - m.steps).natAbs : ℤ)) = t := by omega
    refine ⟨?_, by trivial, s2, ?_, ?_⟩
    · rw [s1, habs]
    · intro hle
      omega
    · intro _
      rw [habs] at s3
      refine s3.imp ?_
      intro a b hab
      omega
  · simp only [if_neg hneg]
    obtain ⟨s1, s2, s3⟩ := iter_loop_spec m.direction c.toNat
      (by omega) (t - m.steps).natAbs m
    rcases hl : iter_loop m m.direction (t - m.steps).natAbs c.toNat
      (by omega) with ⟨m2, ops2, ys⟩
    rw [hl] at s1 s2 s3
    simp only [if_pos rfl, if_true] at s1 s3
    dsimp only at s1 s2 s3 ⊢
    have habs : m.steps + (((t - m.steps).natAbs : ℤ)) = t := by omega
    refine ⟨?_, by trivial, s2, ?_, ?_⟩
    · rw [s1, habs]
    · intro _
      rw [habs] at s3
      refine s3.imp ?_
      intro a b hab
      omega
    · intro hle
      have ht : t = m.steps := by omega
      subst ht
      have hnil : ys = [] := List.length_eq_zero.mp (by simpa using s2)
      subst hnil
      exact List.chain'_pair.mpr le_rfl

lemma iter_steps_value_error {α : Type} (m : WormMotor α) (t c : ℤ)
    (hc : c ≤ 0) :
    m.iter_steps t c = ⟨m, [], [], some .valueError⟩ := by
  simp [WormMotor.iter_steps, hc]

lemma iter_steps_out_of_range {α : Type} (m : WormMotor α) (t c : ℤ)
    (hc : 0 < c) (h : ¬ (t ≤ m.limit_upper ∧ m.limit_lower ≤ t)) :
    m.iter_steps t c =
      ⟨m, [], [], some (.outOfRange t m.limit_lower m.limit_upper)⟩ := by
  unfold WormMotor.iter_steps
  rw [dif_neg (by omega : ¬ c ≤ 0), if_neg h]

lemma chain_le_bounds {s t : ℤ} {ys : List ℤ}
    (h : List.Chain' (· ≤ ·) (s :: ys ++ [t])) :
    ∀ y ∈ ys, s ≤ y ∧ y ≤ t := by
  rw [List.chain'_iff_pairwise] at h
  obtain ⟨h1, h2⟩ := List.pairwise_cons.mp h
  obtain ⟨-, -, h3⟩ := List.pairwise_append.mp h2
  intro y hy
  exact ⟨h1 y (List.mem_append_left _ hy), h3 y hy t (List.mem_singleton_self t)⟩

lemma chain_ge_bounds {s t : ℤ} {ys : List ℤ}
    (h : List.Chain' (fun a b : ℤ => b ≤ a) (s :: ys ++ [t])) :
    ∀ y ∈ ys, t ≤ y ∧ y ≤ s := by
  haveI : IsTrans ℤ (fun a b : ℤ => b ≤ a) :=
    ⟨fun _ _ _ h1 h2 => le_trans h2 h1⟩
  rw [List.chain'_iff_pairwise] at h
  obtain ⟨h1, h2⟩ := List.pairwise_cons.mp h
  obtain ⟨-, -, h3⟩ := List.pairwise_append.mp h2
  intro y hy
  exact ⟨h3 y hy t (List.mem_singleton_self t), h1 y (List.mem_append_left _ hy)⟩

/-! ### Claim theorems -/

/-- **C1** (amended).  The invariant `limit_lower ≤ steps ≤ limit_upper`
holds in the state immediately after construction *provided* the supplied
initial position lies within the configured limits — the constructor performs
no validation, so an out-of-range initial position violates the invariant
(see the counterexample) — and the invariant is preserved by every
`set_steps` and `iter_steps` call, including at every suspension point of
`iter_steps`; every attempted transition to a target outside the range is
rejected with `OutOfRangeError` before any driver call and leaves the state
unchanged, so no partial invalid move occurs. -/
theorem wormMotor_limit_invariant {α : Type} [LinearOrderedField α]
    [FloorRing α] :
    (∀ (dirv : Value) (w pps lo hi pos : α) (rs : Bool), 0 < w →
        lo ≤ pos → pos ≤ hi →
        (WormMotor.make dirv w pps lo hi pos rs).InLimits) ∧
    (∀ (m : WormMotor α) (t : ℤ), m.InLimits →
        (m.set_steps t).motor.InLimits ∧
        (¬ (m.limit_lower ≤ t ∧ t ≤ m.limit_upper) →
          m.set_steps t =
            ⟨m, [], some (.outOfRange t m.limit_lower m.limit_upper)⟩)) ∧
    (∀ (m : WormMotor α) (t c : ℤ), m.InLimits → 0 < c →
        (m.iter_steps t c).motor.InLimits ∧
        (∀ y ∈ (m.iter_steps t c).yieldSteps,
          m.limit_lower ≤ y ∧ y ≤ m.limit_upper) ∧
        (¬ (m.limit_lower ≤ t ∧ t ≤ m.limit_upper) →
          m.iter_steps t c =
            ⟨m, [], [], some (.outOfRange t m.limit_lower m.limit_upper)⟩)) := by
  refine ⟨?_, ?_, ?_⟩
  · intro dirv w pps lo hi pos rs hw hlo hhi
    refine ⟨pytrunc_mono ?_, pytrunc_mono ?_⟩
    · exact (div_le_div_iff_of_pos_right hw).mpr hlo
    · exact (div_le_div_iff_of_pos_right hw).mpr hhi
  · intro m t hm
    by_cases hin : t ≤ m.limit_upper ∧ m.limit_lower ≤ t
    · obtain ⟨hmot, _⟩ := set_steps_in_range m t hin.1 hin.2
      constructor
      · rw [hmot]
        exact ⟨hin.2, hin.1⟩
      · intro hcontra
        exact absurd ⟨hin.2, hin.1⟩ hcontra
    · rw [set_steps_out_of_range m t hin]
      exact ⟨hm, fun _ => rfl⟩
  · intro m t c hm hc
    by_cases hin : t ≤ m.limit_upper ∧ m.limit_lower ≤ t
    · obtain ⟨hmot, _, _, hup, hdown⟩ :=
        iter_steps_in_range m t c hc hin.1 hin.2
      refine ⟨?_, ?_, ?_⟩
      · rw [hmot]
        exact ⟨hin.2, hin.1⟩
      · intro y hy
        by_cases hdirn : m.steps ≤ t
        · obtain ⟨hy1, hy2⟩ := chain_le_bounds (hup hdirn) y hy
          exact ⟨le_trans hm.1 hy1, le_trans hy2 hin.1⟩
        · obtain ⟨hy1, hy2⟩ := chain_ge_bounds (hdown (by omega)) y hy
          exact ⟨le_trans hin.2 hy1, le_trans hy2 hm.2⟩
      · intro hcontra
        exact absurd ⟨hin.2, hin.1⟩ hcontra
    · rw [iter_steps_out_of_range m t c hc hin]
      exact ⟨hm, fun y hy => absurd hy (List.not_mem_nil y), fun _ => rfl⟩

/-- Witness for C1: a concrete in-range construction satisfies the
hypotheses and the invariant. -/
theorem wormMotor_limit_invariant_witness :
    (0 : ℚ) < 1 ∧ (0 : ℚ) ≤ 3 ∧ (3 : ℚ) ≤ 10 ∧
      (WormMotor.make (α := ℚ) .low 1 100 0 10 3 true).InLimits := by
  refine ⟨by norm_num, by norm_num, by norm_num, ?_⟩
  exact (wormMotor_limit_invariant (α := ℚ)).1 .low 1 100 0 10 3 true
    (by norm_num) (by norm_num) (by norm_num)

/-- **C1** counterexample: constructing a `WormMotor` with `step_width = 1`,
limits `[0, 10]` and supplied initial position `100` yields `steps = 100`
with `limit_upper = 10` and raises no error: the invariant
`limit_lower ≤ steps ≤ limit_upper` is already false in the state
immediately after construction, refuting the claim for arbitrary supplied
initial positions. -/
theorem wormMotor_make_out_of_limits :
    ¬ (WormMotor.make (α := ℚ) .low 1 100 0 10 100 true).InLimits := by
  norm_num [WormMotor.make, WormMotor.InLimits, pytrunc]

/-- **C2**.  `set_steps` on a target outside `[limit_lower, limit_upper]`
raises `OutOfRangeError` carrying the target and both limits, issues no
driver call (in particular no pulse) and leaves `get_steps()` unchanged;
`iter_steps` raises `ValueError` whenever `chunk ≤ 0` (this check comes
first) and, for positive chunks, `OutOfRangeError` under the same
out-of-range condition as `set_steps` — in all cases before any pulse, with
the motor state unchanged. -/
theorem motor_validation_rejection {α : Type} (m : WormMotor α) (t c : ℤ) :
    (¬ (m.limit_lower ≤ t ∧ t ≤ m.limit_upper) →
      m.set_steps t =
        ⟨m, [], some (.outOfRange t m.limit_lower m.limit_upper)⟩) ∧
    (c ≤ 0 → m.iter_steps t c = ⟨m, [], [], some .valueError⟩) ∧
    (0 < c → ¬ (m.limit_lower ≤ t ∧ t ≤ m.limit_upper) →
      m.iter_steps t c =
        ⟨m, [], [], some (.outOfRange t m.limit_lower m.limit_upper)⟩) := by
  refine ⟨?_, ?_, ?_⟩
  · intro h
    exact set_steps_out_of_range m t (by tauto)
  · intro hc
    exact iter_steps_value_error m t c hc
  · intro hc h
    exact iter_steps_out_of_range m t c hc (by tauto)

/-- Witness for C2 at a concrete motor with limits `[0, 10]`: target `11` is
rejected with the full error payload and an unchanged motor, and chunk `0` is
rejected with `ValueError`. -/
theorem motor_validation_rejection_witness :
    ¬ ((0 : ℤ) ≤ 11 ∧ (11 : ℤ) ≤ 10) ∧ (0 : ℤ) < 2 ∧
    (⟨Value.low, 1, 1, 0, 10, 3, true⟩ : WormMotor ℚ).set_steps 11 =
      ⟨⟨Value.low, 1, 1, 0, 10, 3, true⟩, [], some (.outOfRange 11 0 10)⟩ ∧
    (⟨Value.low, 1, 1, 0, 10, 3, true⟩ : WormMotor ℚ).iter_steps 5 0 =
      ⟨⟨Value.low, 1, 1, 0, 10, 3, true⟩, [], [], some .valueError⟩ ∧
    (⟨Value.low, 1, 1, 0, 10, 3, true⟩ : WormMotor ℚ).iter_steps 11 2 =
      ⟨⟨Value.low, 1, 1, 0, 10, 3, true⟩, [], [],
        some (.outOfRange 11 0 10)⟩ := by
  refine ⟨by omega, by omega, ?_, ?_, ?_⟩
  · exact (motor_validation_rejection
      (⟨Value.low, 1, 1, 0, 10, 3, true⟩ : WormMotor ℚ) 11 2).1 (by decide)
  · exact (motor_validation_rejection
      (⟨Value.low, 1, 1, 0, 10, 3, true⟩ : WormMotor ℚ) 5 0).2.1 (by decide)
  · exact (motor_validation_rejection
      (⟨Value.low, 1, 1, 0, 10, 3, true⟩ : WormMotor ℚ) 11 2).2.2
      (by decide) (by decide)

/-- **C3** (amended).  For an in-range target and a positive chunk,
`iter_steps(target, chunk)` completes without error with
`get_steps() = target`, the intermediate counter values move monotonically
from the start toward the target, and the generator suspends exactly
`(|target - current| - 1) / chunk` times (integer division) — i.e.
`⌈|target - current| / chunk⌉ - 1` times when the distance is non-zero: it
suspends after each chunk moved inside the loop, but the final (partial or
full) chunk is executed on generator exhaustion *without* a further
suspension, one fewer than the claimed `⌈|target - current| / chunk⌉`. -/
theorem iter_steps_chunked_move {α : Type} (m : WormMotor α) (t c : ℤ)
    (hc : 0 < c) (h1 : m.limit_lower ≤ t) (h2 : t ≤ m.limit_upper) :
    (m.iter_steps t c).error = none ∧
    (m.iter_steps t c).motor.get_steps = t ∧
    (m.iter_steps t c).yieldSteps.length =
      ((t - m.steps).natAbs - 1) / c.toNat ∧
    (0 < (t - m.steps).natAbs →
      (m.iter_steps t c).yieldSteps.length + 1 =
        ((t - m.steps).natAbs + c.toNat - 1) / c.toNat) ∧
    (m.steps ≤ t →
      List.Chain' (· ≤ ·)
        (m.steps :: (m.iter_steps t c).yieldSteps ++ [t])) ∧
    (t ≤ m.steps →
      List.Chain' (fun a b : ℤ => b ≤ a)
        (m.steps :: (m.iter_steps t c).yieldSteps ++ [t])) := by
  obtain ⟨hmot, herr, hlen, hup, hdown⟩ := iter_steps_in_range m t c hc h2 h1
  refine ⟨herr, ?_, hlen, ?_, hup, hdown⟩
  · rw [hmot]
    rfl
  · intro hpos
    rw [hlen]
    have hceil : (t - m.steps).natAbs + c.toNat - 1 =
        ((t - m.steps).natAbs - 1) + c.toNat := by omega
    rw [hceil, Nat.add_div_right _ (by omega)]

/-- Witness for C3: moving a concrete motor from `3` to `7` in chunks of `2`
suspends once (`(4 - 1) / 2 = 1`, i.e. `⌈4 / 2⌉ - 1`), ends at `7`, and the
counter chain is monotone. -/
theorem iter_steps_chunked_move_witness :
    (0 : ℤ) < 2 ∧ (0 : ℤ) ≤ 7 ∧ (7 : ℤ) ≤ 10 ∧
    (((⟨Value.low, 1, 1, 0, 10, 3, true⟩ : WormMotor ℚ).iter_steps 7 2).error
        = none ∧
      ((⟨Value.low, 1, 1, 0, 10, 3, true⟩ :
          WormMotor ℚ).iter_steps 7 2).motor.get_steps = 7 ∧
      ((⟨Value.low, 1, 1, 0, 10, 3, true⟩ :
          WormMotor ℚ).iter_steps 7 2).yieldSteps.length =
        (((7 : ℤ) - 3).natAbs - 1) / (2 : ℤ).toNat ∧
      (0 < ((7 : ℤ) - 3).natAbs →
        ((⟨Value.low, 1, 1, 0, 10, 3, true⟩ :
            WormMotor ℚ).iter_steps 7 2).yieldSteps.length + 1 =
          (((7 : ℤ) - 3).natAbs + (2 : ℤ).toNat - 1) / (2 : ℤ).toNat) ∧
      ((3 : ℤ) ≤ 7 →
        List.Chain' (· ≤ ·) ((3 : ℤ) ::
          ((⟨Value.low, 1, 1, 0, 10, 3, true⟩ :
              WormMotor ℚ).iter_steps 7 2).yieldSteps ++ [7])) ∧
      ((7 : ℤ) ≤ 3 →
        List.Chain' (fun a b : ℤ => b ≤ a) ((3 : ℤ) ::
          ((⟨Value.low, 1, 1, 0, 10, 3, true⟩ :
              WormMotor ℚ).iter_steps 7 2).yieldSteps ++ [7]))) := by
  refine ⟨by omega, by omega, by omega, ?_⟩
  exact iter_steps_chunked_move (⟨Value.low, 1, 1, 0, 10, 3, true⟩ :
    WormMotor ℚ) 7 2 (by decide) (by decide) (by decide)

/-- **C3** counterexample: with current count `0`, target `4` and chunk `2`
the generator's suspension list is `[2]` — a single suspension after the
first chunk; the final chunk runs on exhaustion without suspending — whereas
the claim demands `⌈|4 - 0| / 2⌉ = 2` suspensions. -/
theorem iter_steps_suspensions_counterexample :
    ((⟨Value.low, 1, 1, 0, 10, 0, true⟩ : WormMotor ℚ).iter_steps 4 2).yieldSteps
      = [2] ∧
    (⌈(4 : ℚ) / 2⌉ : ℤ) = 2 ∧
    ((⟨Value.low, 1, 1, 0, 10, 0, true⟩ :
        WormMotor ℚ).iter_steps 4 2).yieldSteps.length ≠ 2 := by
  have hys : ((⟨Value.low, 1, 1, 0, 10, 0, true⟩ :
      WormMotor ℚ).iter_steps 4 2).yieldSteps = [2] := by
    simp only [WormMotor.iter_steps]
    norm_num
    rw [iter_loop.eq_def]
    norm_num
    rw [iter_loop.eq_def]
    norm_num [WormMotor.move_steps]
  refine ⟨hys, by norm_num, ?_⟩
  rw [hys]
  norm_num

lemma pytrunc_quantization {α : Type} [LinearOrderedField α] [FloorRing α]
    (p w : α) (hw : 0 < w) : |(pytrunc (p / w) : α) * w - p| < w := by
  have h := abs_pytrunc_sub_lt_one (p / w)
  have hfact : (pytrunc (p / w) : α) * w - p =
      ((pytrunc (p / w) : α) - p / w) * w := by
    field_simp
  rw [hfact, abs_mul, abs_of_pos hw]
  calc |(pytrunc (p / w) : α) - p / w| * w < 1 * w :=
        mul_lt_mul_of_pos_right h hw
    _ = w := one_mul w

lemma pytrunc_nonpos_of_lt_one {α : Type} [LinearOrderedField α] [FloorRing α]
    {x : α} (h : x < 1) : pytrunc x ≤ 0 := by
  unfold pytrunc
  split_ifs with hx
  · have hlt := Int.floor_lt.mpr (show x < ((1 : ℤ) : α) by exact_mod_cast h)
    omega
  · exact Int.ceil_le.mpr (by exact_mod_cast le_of_not_le hx)

/-- **C4**.  For a ramp with adjacent side `a > 0` and angular offset `φ`
(`offset_position = tan φ * a` fixed at construction) and any angle `θ`
whose commanded position `tan θ * a - offset_position` converts to a step
count within the motor's limits: `set_angle θ` succeeds, the motor lands on
`tan θ * a - offset_position` quantized to whole steps (so the achieved
position differs from the commanded one by less than one `step_width`),
`get_angle()` afterwards returns `atan((position + offset_position) / a)`,
and the linear position encoded by the returned angle differs from that of
`θ` by less than one `step_width` — equality within one
`step_width`-induced quantization. -/
theorem ramp_set_get_angle (m : WormMotor ℝ) (a φ θ : ℝ)
    (ha : 0 < a) (hw : 0 < m.step_width)
    (hlo : m.limit_lower ≤
      pytrunc ((Real.tan θ * a - Real.tan φ * a) / m.step_width))
    (hhi : pytrunc ((Real.tan θ * a - Real.tan φ * a) / m.step_width) ≤
      m.limit_upper) :
    ((Ramp.make m a φ).set_angle θ).error = none ∧
    ((Ramp.make m a φ).set_angle θ).motor.steps =
      pytrunc ((Real.tan θ * a - Real.tan φ * a) / m.step_width) ∧
    (Ramp.make ((Ramp.make m a φ).set_angle θ).motor a φ).get_angle =
      Real.arctan
        ((((Ramp.make m a φ).set_angle θ).motor.get_position +
          Real.tan φ * a) / a) ∧
    |((Ramp.make m a φ).set_angle θ).motor.get_position -
        (Real.tan θ * a - Real.tan φ * a)| < m.step_width ∧
    |Real.tan
        ((Ramp.make ((Ramp.make m a φ).set_angle θ).motor a φ).get_angle) * a
      - Real.tan θ * a| < m.step_width := by
  have hset : (Ramp.make m a φ).set_angle θ =
      m.set_steps (pytrunc
        ((Real.tan θ * a - Real.tan φ * a) / m.step_width)) := rfl
  obtain ⟨hmot, herr⟩ := set_steps_in_range m
    (pytrunc ((Real.tan θ * a - Real.tan φ * a) / m.step_width)) hhi hlo
  rw [hset] at *
  have hq := pytrunc_quantization (Real.tan θ * a - Real.tan φ * a)
    m.step_width hw
  have hpos : (m.set_steps (pytrunc
      ((Real.tan θ * a - Real.tan φ * a) / m.step_width))).motor.get_position =
      (pytrunc ((Real.tan θ * a - Real.tan φ * a) / m.step_width) : ℝ) *
        m.step_width := by
    rw [hmot]
    rfl
  refine ⟨herr, ?_, rfl, ?_, ?_⟩
  · rw [hmot]
  · rw [hpos]
    exact hq
  · have hga : (Ramp.make (m.set_steps (pytrunc
        ((Real.tan θ * a - Real.tan φ * a) / m.step_width))).motor a φ).get_angle =
        Real.arctan (((m.set_steps (pytrunc
          ((Real.tan θ * a - Real.tan φ * a) /
            m.step_width))).motor.get_position + Real.tan φ * a) / a) := rfl
    rw [hga, Real.tan_arctan, div_mul_cancel₀ _ (ne_of_gt ha), hpos]
    have hre : (pytrunc ((Real.tan θ * a - Real.tan φ * a) / m.step_width) : ℝ) *
        m.step_width + Real.tan φ * a - Real.tan θ * a =
        (pytrunc ((Real.tan θ * a - Real.tan φ * a) / m.step_width) : ℝ) *
          m.step_width - (Real.tan θ * a - Real.tan φ * a) := by
      ring
    rw [hre]
    exact hq

/-- Witness for C4 at `a = 1`, `φ = θ = 0` on a motor with limits
`[-5, 5]` and `step_width = 1`. -/
theorem ramp_set_get_angle_witness :
    (0 : ℝ) < 1 ∧
    ((Ramp.make (⟨Value.low, 1, 1, -5, 5, 0, true⟩ : WormMotor ℝ) 1 0).set_angle
        0).error = none := by
  refine ⟨by norm_num, ?_⟩
  exact (ramp_set_get_angle (⟨Value.low, 1, 1, -5, 5, 0, true⟩ : WormMotor ℝ)
    1 0 0 (by norm_num) (by norm_num)
    (by norm_num [pytrunc, Real.tan_zero])
    (by norm_num [pytrunc, Real.tan_zero])).1

/-- **C7** (amended).  The per-pulse sleep argument the code passes to
`time.sleep` is exactly `(1/pps) - 2*pulse_width`, with no clamping: it
agrees with the specified `max(0, 1/pps - 2*pulse_width)` exactly when
`2*pulse_width ≤ 1/pps` (the counterexample shows the two differ — the code
passes a negative argument — when `pps` exceeds `1/(2*pulse_width)`). -/
theorem sleep_duration_formula (pps w : ℚ) (h : 2 * w ≤ 1 / pps) :
    sleep_arg pps w = sleep_arg_spec pps w := by
  unfold sleep_arg sleep_arg_spec
  rw [max_eq_right (by linarith)]
  ring

/-- Witness for C7 at `pps = 100` and the code's pulse width. -/
theorem sleep_duration_formula_witness :
    2 * STEP_SLEEP ≤ 1 / (100 : ℚ) ∧
    sleep_arg 100 STEP_SLEEP = sleep_arg_spec 100 STEP_SLEEP :=
  ⟨by norm_num [STEP_SLEEP],
   sleep_duration_formula 100 STEP_SLEEP (by norm_num [STEP_SLEEP])⟩

/-- **C7** counterexample: at `pps = 10^6` with the code's pulse width
`STEP_SLEEP = 10^-6`, the code's sleep argument is `-10^-6` while the
claimed clamped value is `0`: the code does not clamp the sleep duration. -/
theorem sleep_duration_not_clamped :
    sleep_arg 1000000 STEP_SLEEP = -(1 / 1000000) ∧
    sleep_arg_spec 1000000 STEP_SLEEP = 0 ∧
    sleep_arg 1000000 STEP_SLEEP ≠ sleep_arg_spec 1000000 STEP_SLEEP := by
  norm_num [sleep_arg, sleep_arg_spec, STEP_SLEEP]

/-- **C10**.  A positive `step_size` strictly smaller than `step_width`
makes `iter_position` raise `ValueError`, because the chunk is converted to
whole steps by truncation toward zero and becomes `0 ≤ 0`; likewise
`iter_angle` raises `ValueError` for any step-size angle whose converted
linear distance `tan σ * adjacent` is below one `step_width`. -/
theorem iter_position_small_chunk (m : WormMotor ℚ) (p s : ℚ)
    (r : Ramp ℝ) (θ σ : ℝ) :
    (0 < s → s < m.step_width →
      m.iter_position p s = ⟨m, [], [], some .valueError⟩) ∧
    (0 < r.motor.step_width →
      Real.tan σ * r.adjacent < r.motor.step_width →
      r.iter_angle θ σ = ⟨r.motor, [], [], some .valueError⟩) := by
  constructor
  · intro hs hsw
    have hw : 0 < m.step_width := lt_trans hs hsw
    have hlt : s / m.step_width < 1 := (div_lt_one hw).mpr hsw
    exact iter_steps_value_error m _ _ (pytrunc_nonpos_of_lt_one hlt)
  · intro hw hσ
    have hlt : Real.tan σ * r.adjacent / r.motor.step_width < 1 :=
      (div_lt_one hw).mpr hσ
    exact iter_steps_value_error r.motor _ _ (pytrunc_nonpos_of_lt_one hlt)

/-- Witness for C10: `step_size = 1/2` with `step_width = 1` raises
`ValueError` from `iter_position`, and a zero step-size angle (converted
distance `0 < 1`) raises `ValueError` from `iter_angle`. -/
theorem iter_position_small_chunk_witness :
    (0 : ℚ) < 1 / 2 ∧ (1 : ℚ) / 2 < 1 ∧
    (⟨Value.low, 1, 1, 0, 10, 3, true⟩ : WormMotor ℚ).iter_position 5 (1 / 2) =
      ⟨⟨Value.low, 1, 1, 0, 10, 3, true⟩, [], [], some .valueError⟩ ∧
    (Ramp.make (⟨Value.low, 1, 1, -5, 5, 0, true⟩ : WormMotor ℝ) 1 0).iter_angle
        0 0 =
      ⟨⟨Value.low, 1, 1, -5, 5, 0, true⟩, [], [], some .valueError⟩ := by
  refine ⟨by norm_num, by norm_num, ?_, ?_⟩
  · exact ((iter_position_small_chunk
      (⟨Value.low, 1, 1, 0, 10, 3, true⟩ : WormMotor ℚ) 5 (1 / 2)
      (Ramp.make (⟨Value.low, 1, 1, -5, 5, 0, true⟩ : WormMotor ℝ) 1 0)
      0 0).1) (by norm_num) (by norm_num)
  · exact ((iter_position_small_chunk
      (⟨Value.low, 1, 1, 0, 10, 3, true⟩ : WormMotor ℚ) 5 (1 / 2)
      (Ramp.make (⟨Value.low, 1, 1, -5, 5, 0, true⟩ : WormMotor ℝ) 1 0)
      0 0).2) (by norm_num [Ramp.make]) (by norm_num [Ramp.make, Real.tan_zero])

/-- **C5**.  For every handled target: a sensor-timeout publishes ERROR and
does not propagate (the loop continues); in every outcome of the edge wait —
edge observed, timeout, or any other exception — the elevator is disabled
exactly once and the cooldown waiter is reset exactly once, both in the
`finally` block; only a non-timeout exception propagates. -/
theorem handle_target_cleanup (chunks : ℕ) (outcome : EdgeOutcome) :
    (handle_target chunks outcome).1.count .elevatorDisable = 1 ∧
    (handle_target chunks outcome).1.count .waiterReset = 1 ∧
    (outcome = .timeout →
      (handle_target chunks outcome).2 = false ∧
      ServerEvent.publishStatus .error ∈ (handle_target chunks outcome).1) ∧
    ((handle_target chunks outcome).2 = true ↔ outcome = .fault) := by
  cases outcome <;>
    simp [handle_target, List.count_append, List.count_cons,
      List.count_replicate, List.count_singleton]

/-- Witness for C5 at two chunks and a timeout outcome. -/
theorem handle_target_cleanup_witness :
    (handle_target 2 .timeout).1.count .elevatorDisable = 1 ∧
    (handle_target 2 .timeout).1.count .waiterReset = 1 ∧
    (handle_target 2 .timeout).2 = false ∧
    ServerEvent.publishStatus .error ∈ (handle_target 2 .timeout).1 := by
  obtain ⟨h1, h2, h3, _⟩ := handle_target_cleanup 2 .timeout
  exact ⟨h1, h2, (h3 rfl).1, (h3 rfl).2⟩

lemma exec_act (fails : ShutdownStep → Bool) (s : ShutdownStep) :
    Stmt.exec fails (.act s) = ([s], fails s) := rfl

lemma exec_seq (fails : ShutdownStep → Bool) (a b : Stmt) :
    Stmt.exec fails (.seq a b) =
      if (Stmt.exec fails a).2 then ((Stmt.exec fails a).1, true)
      else ((Stmt.exec fails a).1 ++ (Stmt.exec fails b).1,
        (Stmt.exec fails b).2) := by
  rcases ha : Stmt.exec fails a with ⟨ta, ea⟩
  rcases hb : Stmt.exec fails b with ⟨tb, eb⟩
  simp [Stmt.exec, ha, hb]

lemma exec_tryFinally (fails : ShutdownStep → Bool) (b f : Stmt) :
    Stmt.exec fails (.tryFinally b f) =
      ((Stmt.exec fails b).1 ++ (Stmt.exec fails f).1,
        (Stmt.exec fails b).2 || (Stmt.exec fails f).2) := by
  rcases hb : Stmt.exec fails b with ⟨tb, eb⟩
  rcases hf : Stmt.exec fails f with ⟨tf, ef⟩
  simp [Stmt.exec, hb, hf]

lemma driverSleep_mem_a4988_shutdown (fails : ShutdownStep → Bool) :
    ShutdownStep.driverSleep ∈ (Stmt.exec fails A4988.shutdown_stmt).1 := by
  unfold A4988.shutdown_stmt
  rw [exec_seq, exec_act]
  split_ifs <;> simp

/-- **C6** (amended).  Cleanup at the *layer boundaries* is guaranteed: the
motor's `finally` attempts the driver shutdown even if homing fails, and the
server's `finally` starts the device teardown even if stop/disconnect fails;
when no teardown step itself fails, every owned resource (all four driver
lines, the elevator, the landing zone) receives a release call.  But *within*
a teardown sequence an error does short-circuit the remaining steps (see the
counterexample): the four line releases of the driver and the server's three
device releases are sequential and unprotected. -/
theorem shutdown_release_attempts :
    (∀ (fails : ShutdownStep → Bool) (rs : Bool),
      ShutdownStep.driverSleep ∈
        (Stmt.exec fails (WormMotor.shutdown_stmt rs)).1) ∧
    (∀ (fails : ShutdownStep → Bool) (rs : Bool),
      ShutdownStep.driverSleep ∈
        (Stmt.exec fails (RampServer.shutdown_stmt rs)).1) ∧
    ((Stmt.exec (fun _ => false) (RampServer.shutdown_stmt true)).1 =
      [.serverStop, .mqttDisconnect, .homing, .driverSleep, .driverDisable,
        .relEnable, .relSleep, .relStep, .relDir, .elevatorRelease,
        .landingRelease]) := by
  refine ⟨?_, ?_, by decide⟩
  · intro fails rs
    unfold WormMotor.shutdown_stmt
    rw [exec_tryFinally]
    exact List.mem_append_right _ (driverSleep_mem_a4988_shutdown fails)
  · intro fails rs
    unfold RampServer.shutdown_stmt
    rw [exec_tryFinally]
    refine List.mem_append_right _ ?_
    rw [exec_seq]
    have hmem : ShutdownStep.driverSleep ∈
        (Stmt.exec fails (Ramp.shutdown_stmt rs)).1 := by
      unfold Ramp.shutdown_stmt WormMotor.shutdown_stmt
      rw [exec_tryFinally]
      exact List.mem_append_right _ (driverSleep_mem_a4988_shutdown fails)
    split_ifs
    · exact hmem
    · exact List.mem_append_left _ hmem

/-- Witness for C6 with a failing homing step: the driver shutdown is still
attempted. -/
theorem shutdown_release_attempts_witness :
    ShutdownStep.driverSleep ∈
      (Stmt.exec (fun s => s == ShutdownStep.homing)
        (WormMotor.shutdown_stmt true)).1 :=
  (shutdown_release_attempts).1 (fun s => s == ShutdownStep.homing) true

/-- **C6** counterexample: if releasing the enable line raises, the driver's
remaining three line releases are never attempted (`A4988.shutdown` has no
per-step protection); and if the motor's homing move raises, the re-raised
exception propagates out of `ramp.shutdown()` inside the server's `finally`,
so the elevator and landing-zone releases are skipped. -/
theorem shutdown_short_circuit_counterexample :
    (Stmt.exec (fun s => s == ShutdownStep.relEnable) A4988.shutdown_stmt).1 =
      [.driverSleep, .driverDisable, .relEnable] ∧
    ShutdownStep.relSleep ∉
      (Stmt.exec (fun s => s == ShutdownStep.relEnable)
        A4988.shutdown_stmt).1 ∧
    ShutdownStep.elevatorRelease ∉
      (Stmt.exec (fun s => s == ShutdownStep.homing)
        (RampServer.shutdown_stmt true)).1 := by
  decide

/-- **C8** (amended).  Once the worker loop has exited (`is_stopped` is set
and is never cleared by `stop`), two successive `stop()` calls both return
without deadlocking; but each call publishes OFFLINE once, so the two calls
together deliver *two* OFFLINE publications, not one. -/
theorem stop_twice_no_deadlock (s : ServerStopState)
    (h : s.is_stopped = true) :
    RampServer.stop s = some (⟨true, false⟩, [Status.offline]) ∧
    stop_twice s =
      some (⟨true, false⟩, [Status.offline, Status.offline]) := by
  obtain ⟨i, sch⟩ := s
  simp only at h
  subst h
  constructor
  · rfl
  · rfl

/-- Witness for C8 at the state left behind by `loop_forever`'s `finally`. -/
theorem stop_twice_no_deadlock_witness :
    (⟨true, true⟩ : ServerStopState).is_stopped = true ∧
    RampServer.stop ⟨true, true⟩ = some (⟨true, false⟩, [Status.offline]) ∧
    stop_twice ⟨true, true⟩ =
      some (⟨true, false⟩, [Status.offline, Status.offline]) := by
  obtain ⟨h1, h2⟩ := stop_twice_no_deadlock ⟨true, true⟩ rfl
  exact ⟨rfl, h1, h2⟩

/-- **C8** counterexample: from the post-loop state both calls succeed and
the accumulated status publications are `[OFFLINE, OFFLINE]` — two
deliveries, because `stop()` publishes OFFLINE unconditionally on each call —
contradicting the claimed single publication. -/
theorem stop_twice_offline_count :
    stop_twice ⟨true, false⟩ =
      some (⟨true, false⟩, [Status.offline, Status.offline]) ∧
    ([Status.offline, Status.offline].count Status.offline = 2) ∧
    ¬ ([Status.offline, Status.offline].count Status.offline = 1) := by
  decide

lemma applyOps_append (d : DriverState) (l1 l2 : List DriverOp) :
    applyOps d (l1 ++ l2) = applyOps (applyOps d l1) l2 :=
  List.foldl_append _ _ _ _

lemma applyOps_replicate_pulse (d : DriverState) (n : ℕ) :
    applyOps d (List.replicate n .pulse) = d := by
  induction n with
  | zero => rfl
  | succ n ih =>
    rw [List.replicate_succ]
    exact ih

lemma applyOps_move_trace (d : DriverState) (n : ℕ) (dir : Value) :
    applyOps d
      (DriverOp.setDir dir :: .wake :: (List.replicate n .pulse ++ [.sleepOp]))
      = ⟨d.enabled, true, dir⟩ := by
  have h1 : applyOps d
      (DriverOp.setDir dir :: .wake ::
        (List.replicate n .pulse ++ [.sleepOp])) =
      applyOps (⟨d.enabled, false, dir⟩ : DriverState)
        (List.replicate n .pulse ++ [.sleepOp]) := rfl
  rw [h1, applyOps_append, applyOps_replicate_pulse]
  rfl

lemma applyOps_iter_loop {α : Type} (dir : Value) (c : ℕ) (hc : 0 < c) :
    ∀ (n : ℕ) (m : WormMotor α) (d : DriverState),
      applyOps d (iter_loop m dir n c hc).2.1 = ⟨d.enabled, true, dir⟩ := by
  intro n
  induction n using Nat.strong_induction_on with
  | _ n ih =>
    intro m d
    rw [iter_loop.eq_def]
    by_cases h : c < n
    · rw [dif_pos h]
      simp only [WormMotor.move_steps]
      rcases hl : iter_loop
          { m with steps := m.steps +
              (if dir = m.direction then (c : ℤ) else -(c : ℤ)) }
          dir (n - c) c hc with ⟨m2, ops2, ys⟩
      have hrec := ih (n - c) (by omega)
        { m with steps := m.steps +
            (if dir = m.direction then (c : ℤ) else -(c : ℤ)) } ⟨d.enabled, true, dir⟩
      rw [hl] at hrec
      dsimp only at hrec ⊢
      rw [applyOps_append, applyOps_move_trace]
      exact hrec
    · rw [dif_neg h]
      simp only [WormMotor.move_steps]
      exact applyOps_move_trace d n dir

lemma applyOps_set_steps {α : Type} (m : WormMotor α) (t : ℤ)
    (d : DriverState) (hd : d.sleeping = true) :
    (applyOps d (m.set_steps t).ops).sleeping = true ∧
    (applyOps d (m.set_steps t).ops).enabled = d.enabled := by
  unfold WormMotor.set_steps
  by_cases h1 : t ≤ m.limit_upper ∧ m.limit_lower ≤ t
  · simp only [if_pos h1, WormMotor.move_steps]
    by_cases h2 : 0 < t - m.steps
    · simp only [if_pos h2]
      rw [applyOps_move_trace]
      exact ⟨rfl, rfl⟩
    · by_cases h3 : t - m.steps < 0
      · simp only [if_neg h2, if_pos h3]
        rw [applyOps_move_trace]
        exact ⟨rfl, rfl⟩
      · simp only [if_neg h2, if_neg h3]
        exact ⟨hd, rfl⟩
  · simp only [if_neg h1]
    exact ⟨hd, rfl⟩

lemma applyOps_iter_steps {α : Type} (m : WormMotor α) (t c : ℤ)
    (d : DriverState) (hd : d.sleeping = true) :
    (applyOps d (m.iter_steps t c).ops).sleeping = true ∧
    (applyOps d (m.iter_steps t c).ops).enabled = d.enabled := by
  unfold WormMotor.iter_steps
  split_ifs with h1 h2
  · exact ⟨hd, rfl⟩
  · have hrec := applyOps_iter_loop
      (if t - m.steps < 0 then toggle m.direction else m.direction)
      c.toNat (by omega) (t - m.steps).natAbs m d
    rw [hrec]
    exact ⟨rfl, rfl⟩
  · exact ⟨hd, rfl⟩

/-- **C9**.  Construction puts the driver to sleep and then enables it, so
the motor starts enabled and sleeping; every pulse sequence sets the
direction, wakes the driver, pulses, and is closed by the
`finally`-guaranteed sleep — also when it is interrupted by an exception
after any number of pulses — and neither `set_steps` nor `iter_steps` ever
touches the enable line: from any enabled-and-sleeping driver state, every
completed or failed public call leaves the driver enabled and sleeping. -/
theorem driver_enabled_sleeping_invariant {α : Type} :
    applyOps A4988.initState WormMotor.init_ops =
      ⟨true, true, Value.low⟩ ∧
    (∀ (m : WormMotor α) (n : ℕ) (dir : Value),
      (m.move_steps n dir).2 =
        .setDir dir :: .wake ::
          (List.replicate n .pulse ++ [.sleepOp])) ∧
    (∀ (m : WormMotor α) (n j : ℕ) (dir : Value) (d : DriverState),
      applyOps d (m.move_steps_interrupted n dir j).2 =
        ⟨d.enabled, true, dir⟩) ∧
    (∀ (m : WormMotor α) (t : ℤ) (d : DriverState), d.sleeping = true →
      (applyOps d (m.set_steps t).ops).sleeping = true ∧
      (applyOps d (m.set_steps t).ops).enabled = d.enabled) ∧
    (∀ (m : WormMotor α) (t c : ℤ) (d : DriverState), d.sleeping = true →
      (applyOps d (m.iter_steps t c).ops).sleeping = true ∧
      (applyOps d (m.iter_steps t c).ops).enabled = d.enabled) := by
  refine ⟨rfl, fun _ _ _ => rfl, ?_, ?_, ?_⟩
  · intro m n j dir d
    exact applyOps_move_trace d (min j n) dir
  · intro m t d hd
    exact applyOps_set_steps m t d hd
  · intro m t c d hd
    exact applyOps_iter_steps m t c d hd

/-- Witness for C9: from the enabled-and-sleeping post-construction state, a
concrete `set_steps` and a concrete interrupted move leave the driver
enabled and sleeping. -/
theorem driver_enabled_sleeping_invariant_witness :
    (⟨true, true, Value.low⟩ : DriverState).sleeping = true ∧
    (applyOps ⟨true, true, Value.low⟩
      (((⟨Value.low, 1, 1, 0, 10, 3, true⟩ : WormMotor ℚ).set_steps 7).ops)).sleeping
      = true ∧
    applyOps ⟨true, true, Value.low⟩
      ((⟨Value.low, 1, 1, 0, 10, 3, true⟩ :
        WormMotor ℚ).move_steps_interrupted 5 Value.low 2).2 =
      ⟨true, true, Value.low⟩ := by
  refine ⟨rfl, ?_, ?_⟩
  · exact ((driver_enabled_sleeping_invariant (α := ℚ)).2.2.2.1
      (⟨Value.low, 1, 1, 0, 10, 3, true⟩ : WormMotor ℚ) 7
      ⟨true, true, Value.low⟩ rfl).1
  · exact (driver_enabled_sleeping_invariant (α := ℚ)).2.2.1
      (⟨Value.low, 1, 1, 0, 10, 3, true⟩ : WormMotor ℚ) 5 2 Value.low
      ⟨true, true, Value.low⟩

end RampExperiment
